import Mathlib

/-!
Verification of the libzippp specification against a shallow embedding.

The repository is a thin C++ wrapper around libzip: the wrapper code
(ZipArchive.cpp / zippy.cpp / zip.hpp) delegates every archive operation to
the underlying library.  The specification therefore specifies a
self-contained ZIP archive engine (entry table, archive session, stream
codec, finalize).  That engine is not present in the repository sources, so
it is modelled here from the specification's words; the parts that are
present in the sources (the string-returning read overload of the file
class, and the entry iterators) are embedded directly from the source code.
-/

namespace LibzipSpec

/-- A sequence of bytes; each element is a byte value (0..255 where relevant). -/
abbrev Bytes := List Nat

/-- Modelled from the spec: the error taxonomy of the error-handling design
(NotFoundError, CorruptArchiveError, DuplicateNameError, WrongPasswordError,
UnsupportedCompressionError, ChecksumMismatchError, IoError, StateError). -/
inductive ZipError where
  | NotFoundError
  | CorruptArchiveError
  | DuplicateNameError
  | WrongPasswordError
  | UnsupportedCompressionError
  | ChecksumMismatchError
  | IoError
  | StateError
deriving DecidableEq, Repr

/-- Modelled from the spec: SourcePayload is polymorphic over
MemoryBuffer(bytes) and FileSlice(path, start, length); a MemoryBuffer takes
an owned copy of the bytes at construction, a FileSlice is evaluated lazily
against the disk only at finalize time. -/
inductive SourcePayload where
  | memoryBuffer (bytes : Bytes)
  | fileSlice (path : String) (start : Nat) (len : Option Nat)
deriving DecidableEq, Repr

/-- The disk outside the archive: an association of paths to file contents.
This models the filesystem collaborator the spec lists as an external
interface (sources such as FileSlice read from it). -/
abbrev Disk := List (String × Bytes)

/-- Look a path up on the disk. -/
def diskLookup (d : Disk) (p : String) : Option Bytes :=
  match d with
  | [] => none
  | (q, b) :: rest => if q = p then some b else diskLookup rest p

/-- The slice of a file a FileSlice source denotes: from `start`, at most
`len` bytes (all remaining bytes when `len` is none, mirroring the
length = -1 default of the wrapper's file source). -/
def sliceBytes (content : Bytes) (start : Nat) (len : Option Nat) : Bytes :=
  match len with
  | none => content.drop start
  | some l => (content.drop start).take l

/-- Modelled from the spec: evaluating a SourcePayload produces its byte
stream; a MemoryBuffer yields its owned copy, a FileSlice reads the disk and
fails with NotFoundError when the path is absent (the deferred failure of a
nonexistent disk file). -/
def evalSource (d : Disk) : SourcePayload → Except ZipError Bytes
  | .memoryBuffer b => .ok b
  | .fileSlice p s l =>
    match diskLookup d p with
    | none => .error .NotFoundError
    | some content => .ok (sliceBytes content s l)

/-- The payload of an entry in the table: bytes already stored in the
committed archive, or a pending source to be evaluated at finalize. -/
inductive Payload where
  | stored (bytes : Bytes)
  | fromSource (src : SourcePayload)
deriving DecidableEq, Repr

/-- Modelled from the spec: an EntryRecord of the Entry Table (name, payload,
comment, tombstone mark; remove marks the slot tombstoned rather than
erasing it, and indices renumber only at finalize). -/
structure EntryRecord where
  name : String
  payload : Payload
  comment : String
  tombstoned : Bool
deriving DecidableEq, Repr

/-- The in-memory ordered collection of entry records, keyed by index
(physical slot) and by name. -/
abbrev EntryTable := List EntryRecord

/-- An entry is live when it is not tombstoned. -/
def EntryRecord.live (e : EntryRecord) : Bool := !e.tombstoned

/-- Whether some live (non-tombstoned) entry of the table holds the name,
compared case-sensitively (the spec's default case sensitivity). -/
def existsName (t : EntryTable) (n : String) : Bool :=
  t.any (fun e => e.live && e.name == n)

/-- Locate the first live entry holding the given name (name lookup of the
Entry Table, case-sensitive). -/
def lookupEntry (t : EntryTable) (n : String) : Option EntryRecord :=
  match t with
  | [] => none
  | e :: rest => if e.live && e.name == n then some e else lookupEntry rest n

/-- Whether a live entry other than the one at index `i` holds the name
(the guard of rename's DuplicateNameError). -/
def holdsNameExcept : EntryTable → Nat → String → Bool
  | [], _, _ => false
  | _ :: rest, 0, n => existsName rest n
  | e :: rest, Nat.succ j, n => (e.live && e.name == n) || holdsNameExcept rest j n

/-- Modelled from the spec: a PendingChange buffered against the Entry Table,
one of Add(source, name), Replace(source, index), Delete(index),
Rename(index, new_name), CommentSet(index, text). -/
inductive PendingChange where
  | add (src : SourcePayload) (name : String)
  | replace (src : SourcePayload) (idx : Nat)
  | delete (idx : Nat)
  | rename (idx : Nat) (newName : String)
  | commentSet (idx : Nat) (text : String)
deriving DecidableEq, Repr

/-- Update the entry at physical slot `i` (no effect when out of range). -/
def modifyEntry (t : EntryTable) (i : Nat) (f : EntryRecord → EntryRecord) : EntryTable :=
  match t[i]? with
  | none => t
  | some e => t.set i (f e)

/-- The fresh record a buffered add appends: named, sourced, no comment,
live. -/
def pendingEntry (src : SourcePayload) (n : String) : EntryRecord :=
  { name := n, payload := .fromSource src, comment := "", tombstoned := false }

/-- Modelled from the spec: the effect of one buffered change on the entry
table — adds append at the end, deletes tombstone the slot, replace swaps
the payload for the new source, rename and comment-set update the record in
place. -/
def applyChange (t : EntryTable) : PendingChange → EntryTable
  | .add src n => t ++ [pendingEntry src n]
  | .replace src i => modifyEntry t i (fun e => { e with payload := .fromSource src })
  | .delete i => modifyEntry t i (fun e => { e with tombstoned := true })
  | .rename i n => modifyEntry t i (fun e => { e with name := n })
  | .commentSet i c => modifyEntry t i (fun e => { e with comment := c })

/-- The buffered view of a committed table under a sequence of pending
changes: the changes applied in order. -/
def applyChanges (t : EntryTable) (cs : List PendingChange) : EntryTable :=
  cs.foldl applyChange t

/-- Modelled from the spec: an Archive Session — the committed snapshot
populated at open time, the live entry table the buffered changes act on,
and the log of changes buffered since the last commit. -/
structure Session where
  committed : EntryTable
  table : EntryTable
  log : List PendingChange
deriving DecidableEq, Repr

/-- A clean session over a table: fresh from open or finalize, no pending
changes. -/
def Session.ofTable (t : EntryTable) : Session :=
  { committed := t, table := t, log := [] }

/-- The buffered view the spec says every read must reflect: the committed
snapshot with the logged pending changes applied. -/
def Session.bufferedView (s : Session) : EntryTable :=
  applyChanges s.committed s.log

/-- Modelled from the spec: add buffers an Add pending change without
touching storage; it fails with DuplicateNameError when a live entry already
holds the name (case-sensitive), and otherwise returns the new index.  The
source is not evaluated here: a reference to a nonexistent disk file is
accepted and its failure deferred to finalize. -/
def Session.addE (s : Session) (src : SourcePayload) (n : String) :
    Except ZipError (Nat × Session) :=
  if existsName s.table n then .error .DuplicateNameError
  else .ok (s.table.length,
    { s with table := s.table ++ [pendingEntry src n], log := s.log ++ [.add src n] })

/-- Modelled from the spec: rename fails with NotFoundError when the index
does not denote a live entry and with DuplicateNameError when another live
(non-tombstoned) entry already holds the name. -/
def Session.renameE (s : Session) (i : Nat) (n : String) : Except ZipError Session :=
  match s.table[i]? with
  | none => .error .NotFoundError
  | some e =>
    if e.tombstoned then .error .NotFoundError
    else if holdsNameExcept s.table i n then .error .DuplicateNameError
    else .ok { s with table := modifyEntry s.table i (fun e => { e with name := n }),
                      log := s.log ++ [.rename i n] }

/-- Modelled from the spec: replace buffers a Replace change for a live
index. -/
def Session.replaceE (s : Session) (i : Nat) (src : SourcePayload) :
    Except ZipError Session :=
  match s.table[i]? with
  | none => .error .NotFoundError
  | some e =>
    if e.tombstoned then .error .NotFoundError
    else .ok { s with table := modifyEntry s.table i (fun e => { e with payload := .fromSource src }),
                      log := s.log ++ [.replace src i] }

/-- Modelled from the spec: remove tombstones the slot at a live index
(physical slots are kept; indices renumber only at finalize). -/
def Session.removeE (s : Session) (i : Nat) : Except ZipError Session :=
  match s.table[i]? with
  | none => .error .NotFoundError
  | some e =>
    if e.tombstoned then .error .NotFoundError
    else .ok { s with table := modifyEntry s.table i (fun e => { e with tombstoned := true }),
                      log := s.log ++ [.delete i] }

/-- Modelled from the spec: set the comment of a live entry (a buffered
CommentSet change). -/
def Session.setCommentE (s : Session) (i : Nat) (c : String) : Except ZipError Session :=
  match s.table[i]? with
  | none => .error .NotFoundError
  | some e =>
    if e.tombstoned then .error .NotFoundError
    else .ok { s with table := modifyEntry s.table i (fun e => { e with comment := c }),
                      log := s.log ++ [.commentSet i c] }

/-- Modelled from the spec: unchangeAll discards every buffered change,
restoring the last-committed state. -/
def Session.unchangeAll (s : Session) : Session :=
  { committed := s.committed, table := s.committed, log := [] }

/-- A client request against a session; failed requests leave the session
unchanged. -/
inductive Op where
  | add (src : SourcePayload) (name : String)
  | replace (idx : Nat) (src : SourcePayload)
  | remove (idx : Nat)
  | rename (idx : Nat) (name : String)
  | setComment (idx : Nat) (text : String)
  | unchangeAll
deriving DecidableEq, Repr

/-- Run one client request; a request whose guard fails reports its error to
the caller and leaves the session state untouched. -/
def applyOp (s : Session) : Op → Session
  | .add src n =>
    match s.addE src n with
    | .ok (_, s') => s'
    | .error _ => s
  | .replace i src =>
    match s.replaceE i src with
    | .ok s' => s'
    | .error _ => s
  | .remove i =>
    match s.removeE i with
    | .ok s' => s'
    | .error _ => s
  | .rename i n =>
    match s.renameE i n with
    | .ok s' => s'
    | .error _ => s
  | .setComment i c =>
    match s.setCommentE i c with
    | .ok s' => s'
    | .error _ => s
  | .unchangeAll => s.unchangeAll

/-- Run a sequence of client requests. -/
def applyOps (s : Session) (ops : List Op) : Session :=
  ops.foldl applyOp s

/-- Locate an entry by name in a table and return its record, failing with
NotFoundError when no live entry holds the name (stat over a table). -/
def statTable (t : EntryTable) (n : String) : Except ZipError EntryRecord :=
  match lookupEntry t n with
  | none => .error .NotFoundError
  | some e => .ok e

/-- The stat read operation of the session: information about the named
entry. -/
def Session.statE (s : Session) (n : String) : Except ZipError EntryRecord :=
  statTable s.table n

/-- The exists read operation of the session: whether a live entry holds the
name. -/
def Session.existsE (s : Session) (n : String) : Bool :=
  existsName s.table n

/-- The live entries the session reports, in insertion order at last
finalize with pending adds appended at the end (tombstoned slots hidden). -/
def Session.entries (s : Session) : EntryTable :=
  s.table.filter (fun e => e.live)

/-- The number of physical entry slots of the session's table. -/
def Session.numEntries (s : Session) : Nat :=
  s.table.length

/-- One shift-and-conditional-xor step of the bit-reflected CRC-32 with the
IEEE 802.3 polynomial 0xEDB88320. -/
def crc32Step (c : Nat) : Nat :=
  if c % 2 = 1 then (c / 2) ^^^ 0xEDB88320 else c / 2

/-- Fold one byte into a running CRC-32: xor the byte into the low bits and
apply eight polynomial steps. -/
def crc32Byte (crc : Nat) (b : Nat) : Nat :=
  let c := crc ^^^ (b % 256)
  crc32Step (crc32Step (crc32Step (crc32Step
    (crc32Step (crc32Step (crc32Step (crc32Step c)))))))

/-- The CRC-32 checksum of a byte sequence (IEEE 802.3 polynomial, initial
value and final xor 0xFFFFFFFF). -/
def crc32 (bs : Bytes) : Nat :=
  (bs.foldl crc32Byte 0xFFFFFFFF) ^^^ 0xFFFFFFFF

/-- Modelled from the spec: an OpenFileStream, a read cursor bound to one
entry — its uncompressed payload, the declared uncompressed size and CRC-32
of the entry record, and the consumption position. -/
structure FileStream where
  data : Bytes
  declaredSize : Nat
  declaredCrc : Nat
  pos : Nat
deriving DecidableEq, Repr

/-- Modelled from the spec: a stream read returns the bytes read, returning
zero bytes at end-of-stream rather than an error; the checksum of the
consumed payload is validated at the final read that reaches the declared
uncompressed size, and a mismatch is reported as ChecksumMismatchError. -/
def FileStream.read (f : FileStream) (len : Nat) : Except ZipError (Bytes × FileStream) :=
  if f.declaredSize ≤ f.pos then .ok ([], f)
  else
    let chunk := (f.data.drop f.pos).take (min len (f.declaredSize - f.pos))
    let newPos := f.pos + chunk.length
    if newPos = f.declaredSize ∧ crc32 (f.data.take f.declaredSize) ≠ f.declaredCrc then
      .error .ChecksumMismatchError
    else .ok (chunk, { f with pos := newPos })

/-- Evaluate an entry payload to its bytes: stored bytes are returned as is,
pending sources are evaluated against the disk. -/
def evalPayload (d : Disk) : Payload → Except ZipError Bytes
  | .stored b => .ok b
  | .fromSource src => evalSource d src

/-- Open a read stream over an entry payload: its byte stream with the
declared uncompressed size and CRC-32 taken from that payload. -/
def openPayload (d : Disk) (p : Payload) : Except ZipError FileStream :=
  match evalPayload d p with
  | .error e => .error e
  | .ok b => .ok { data := b, declaredSize := b.length, declaredCrc := crc32 b, pos := 0 }

/-- Open the named entry of a table for reading, failing with NotFoundError
when no live entry holds the name. -/
def openTable (t : EntryTable) (d : Disk) (n : String) : Except ZipError FileStream :=
  match statTable t n with
  | .error e => .error e
  | .ok e => openPayload d e.payload

/-- The open read operation of the session. -/
def Session.openEntry (s : Session) (d : Disk) (n : String) : Except ZipError FileStream :=
  openTable s.table d n

/-- Read the named entry in full: open it and consume its declared
uncompressed size. -/
def readEntry (s : Session) (d : Disk) (n : String) : Except ZipError Bytes :=
  match s.openEntry d n with
  | .error e => .error e
  | .ok f =>
    match f.read f.declaredSize with
    | .error e => .error e
    | .ok (chunk, _) => .ok chunk

/-- An entry of the committed (finalized) archive: name, stored bytes,
comment. -/
structure StoredEntry where
  name : String
  data : Bytes
  comment : String
deriving DecidableEq, Repr

/-- The committed archive produced by a successful finalize, in final index
order. -/
abbrev Committed := List StoredEntry

/-- Modelled from the spec: the finalize pipeline over the live table —
tombstoned entries are dropped, every surviving entry's payload is streamed
(sources evaluated against the disk), and a failure reports the name of the
entry whose buffered change caused it. -/
def writeEntries (d : Disk) : EntryTable → Except (String × ZipError) Committed
  | [] => .ok []
  | e :: es =>
    if e.tombstoned then writeEntries d es
    else
      match evalPayload d e.payload with
      | .error err => .error (e.name, err)
      | .ok b =>
        match writeEntries d es with
        | .error x => .error x
        | .ok rest => .ok ({ name := e.name, data := b, comment := e.comment } :: rest)

/-- The entry table the Directory Reader populates from a committed archive:
every entry stored and live, in committed order. -/
def toEntryTable (a : Committed) : EntryTable :=
  a.map (fun se => { name := se.name, payload := .stored se.data, comment := se.comment,
                     tombstoned := false })

/-- The clean session obtained by opening a committed archive. -/
def sessionOfArchive (a : Committed) : Session :=
  Session.ofTable (toEntryTable a)

/-- Modelled from the spec: open fails with NotFoundError when the path does
not exist and the create-if-missing flag is unset; with the flag set it
yields a fresh empty archive session. -/
def openArchive (storage : Option Committed) (createIfMissing : Bool) :
    Except ZipError Session :=
  match storage with
  | some a => .ok (sessionOfArchive a)
  | none =>
    if createIfMissing then .ok (Session.ofTable [])
    else .error .NotFoundError

/-- The whole system: the committed archive under the archive's own path
(none when the path does not exist), the rest of the disk the sources read,
and the open session. -/
structure World where
  storage : Option Committed
  disk : Disk
  session : Session
deriving DecidableEq, Repr

/-- A system-level request: a session request, or finalize. -/
inductive WOp where
  | sess (op : Op)
  | finalize
deriving DecidableEq, Repr

/-- Modelled from the spec: session requests never touch storage; finalize
is atomic — on success the rewritten archive fully replaces the stored one
(write-to-temp-then-rename) and the session commits, on failure the stored
archive and the session are left untouched and the error, naming the entry
of the failing buffered change, is reported to the caller. -/
def stepW (w : World) : WOp → World
  | .sess op => { w with session := applyOp w.session op }
  | .finalize =>
    match writeEntries w.disk w.session.table with
    | .ok a => { w with storage := some a, session := sessionOfArchive a }
    | .error _ => w

/-- The outcome finalize reports to the caller. -/
def finalizeResult (w : World) : Except (String × ZipError) Committed :=
  writeEntries w.disk w.session.table

/-- Embedded from the source (zippy.h / ZipArchive.h, the string-returning
read overload): the raw zip_fread-backed overload reports -1 on failure,
modelled as `none`, or the bytes actually read, modelled as `some b` with at
most `lengthReq` bytes delivered; the string overload resizes a buffer to
`lengthReq`, performs the raw read, returns the empty string when the raw
read failed, and otherwise resizes to the count actually read. -/
def ZipFile.readString (raw : Option Bytes) (lengthReq : Nat) : Bytes :=
  match raw with
  | none => []
  | some b => b.take lengthReq

/-- The archive a zippy iterator refers to: its identity and the number of
entries it reports. -/
structure ArchiveRef where
  id : Nat
  numEntries : Nat
deriving DecidableEq, Repr

/-- Embedded from the source (zippy.h, Archive::iterator): the iterator
holds a reference to its archive and the current index. -/
structure ZipIter where
  archive : ArchiveRef
  index : Nat
deriving DecidableEq, Repr

/-- Embedded from the source: iterator equality compares m_index with
other.m_index only; the archive references play no part. -/
def ZipIter.eqIter (a b : ZipIter) : Bool :=
  a.index == b.index

/-- Embedded from the source: begin() is the iterator over this archive at
index 0. -/
def ArchiveRef.beginIter (a : ArchiveRef) : ZipIter :=
  { archive := a, index := 0 }

/-- Embedded from the source: end() is the iterator over this archive at
index numEntries(). -/
def ArchiveRef.endIter (a : ArchiveRef) : ZipIter :=
  { archive := a, index := a.numEntries }

/-! Helper lemmas about the session state machine. -/

theorem applyChanges_append_one (t : EntryTable) (cs : List PendingChange) (c : PendingChange) :
    applyChanges t (cs ++ [c]) = applyChange (applyChanges t cs) c := by
  simp [applyChanges, List.foldl_append]

theorem applyOps_cons (s : Session) (op : Op) (ops : List Op) :
    applyOps s (op :: ops) = applyOps (applyOp s op) ops := by
  simp [applyOps]

/-- No session request ever touches the committed snapshot. -/
theorem applyOp_committed (s : Session) (op : Op) :
    (applyOp s op).committed = s.committed := by
  cases op with
  | add src n =>
    by_cases hd : existsName s.table n = true <;>
      simp [applyOp, Session.addE, hd]
  | replace i src =>
    match he : s.table[i]? with
    | none => simp [applyOp, Session.replaceE, he]
    | some e =>
      by_cases ht : e.tombstoned = true <;>
        simp [applyOp, Session.replaceE, he, ht]
  | remove i =>
    match he : s.table[i]? with
    | none => simp [applyOp, Session.removeE, he]
    | some e =>
      by_cases ht : e.tombstoned = true <;>
        simp [applyOp, Session.removeE, he, ht]
  | rename i n =>
    match he : s.table[i]? with
    | none => simp [applyOp, Session.renameE, he]
    | some e =>
      by_cases ht : e.tombstoned = true
      · simp [applyOp, Session.renameE, he, ht]
      · by_cases hh : holdsNameExcept s.table i n = true <;>
          simp [applyOp, Session.renameE, he, ht, hh]
  | setComment i c =>
    match he : s.table[i]? with
    | none => simp [applyOp, Session.setCommentE, he]
    | some e =>
      by_cases ht : e.tombstoned = true <;>
        simp [applyOp, Session.setCommentE, he, ht]
  | unchangeAll => rfl

theorem applyOps_committed (s : Session) (ops : List Op) :
    (applyOps s ops).committed = s.committed := by
  induction ops generalizing s with
  | nil => rfl
  | cons op rest ih =>
    rw [applyOps_cons, ih, applyOp_committed]

/-- A successfully buffered change keeps the live table and the log in step:
the table obtained by applying the change equals the buffered view of the
extended log. -/
theorem view_extend (s : Session) (c : PendingChange) (h : s.table = s.bufferedView) :
    applyChange s.table c
      = applyChanges s.committed (s.log ++ [c]) := by
  rw [applyChanges_append_one, h]; rfl

/-- Every session request preserves the defining invariant: the live entry
table equals the buffered view of the committed snapshot under the logged
pending changes. -/
theorem applyOp_view (s : Session) (op : Op) (h : s.table = s.bufferedView) :
    (applyOp s op).table = (applyOp s op).bufferedView := by
  cases op with
  | add src n =>
    by_cases hd : existsName s.table n = true
    · simpa [applyOp, Session.addE, hd] using h
    · simp only [applyOp, Session.addE, hd, if_neg, Bool.not_eq_true]
      simpa [Session.bufferedView] using view_extend s (.add src n) h
  | replace i src =>
    match he : s.table[i]? with
    | none => simpa [applyOp, Session.replaceE, he] using h
    | some e =>
      by_cases ht : e.tombstoned = true
      · simpa [applyOp, Session.replaceE, he, ht] using h
      · simp only [applyOp, Session.replaceE, he, ht]
        simpa [Session.bufferedView, applyChange] using
          view_extend s (.replace src i) h
  | remove i =>
    match he : s.table[i]? with
    | none => simpa [applyOp, Session.removeE, he] using h
    | some e =>
      by_cases ht : e.tombstoned = true
      · simpa [applyOp, Session.removeE, he, ht] using h
      · simp only [applyOp, Session.removeE, he, ht]
        simpa [Session.bufferedView, applyChange] using
          view_extend s (.delete i) h
  | rename i n =>
    match he : s.table[i]? with
    | none => simpa [applyOp, Session.renameE, he] using h
    | some e =>
      by_cases ht : e.tombstoned = true
      · simpa [applyOp, Session.renameE, he, ht] using h
      · by_cases hh : holdsNameExcept s.table i n = true
        · simpa [applyOp, Session.renameE, he, ht, hh] using h
        · simp only [applyOp, Session.renameE, he, ht, hh]
          simpa [Session.bufferedView, applyChange] using
            view_extend s (.rename i n) h
  | setComment i c =>
    match he : s.table[i]? with
    | none => simpa [applyOp, Session.setCommentE, he] using h
    | some e =>
      by_cases ht : e.tombstoned = true
      · simpa [applyOp, Session.setCommentE, he, ht] using h
      · simp only [applyOp, Session.setCommentE, he, ht]
        simpa [Session.bufferedView, applyChange] using
          view_extend s (.commentSet i c) h
  | unchangeAll =>
    simp [applyOp, Session.unchangeAll, Session.bufferedView, applyChanges]

theorem applyOps_view (s : Session) (ops : List Op) (h : s.table = s.bufferedView) :
    (applyOps s ops).table = (applyOps s ops).bufferedView := by
  induction ops generalizing s with
  | nil => exact h
  | cons op rest ih =>
    rw [applyOps_cons]
    exact ih _ (applyOp_view s op h)

theorem ofTable_view (t : EntryTable) :
    (Session.ofTable t).table = (Session.ofTable t).bufferedView := rfl

theorem existsName_append_one (t : EntryTable) (e : EntryRecord) (m : String) :
    existsName (t ++ [e]) m = (existsName t m || (e.live && e.name == m)) := by
  simp [existsName, List.any_append]

/-- The request sequence that buffers one add with a memory-buffer payload
per pair. -/
def addBufferOps (pairs : List (String × Bytes)) : List Op :=
  pairs.map (fun p => Op.add (.memoryBuffer p.2) p.1)

/-- Buffering adds for pairwise distinct fresh names appends one pending
entry per pair, in order. -/
theorem applyOps_addAll (pairs : List (String × Bytes)) (s : Session)
    (hfree : ∀ p ∈ pairs, existsName s.table p.1 = false)
    (hnd : (pairs.map Prod.fst).Nodup) :
    (applyOps s (addBufferOps pairs)).table
      = s.table ++ pairs.map (fun p => pendingEntry (.memoryBuffer p.2) p.1) := by
  induction pairs generalizing s with
  | nil => simp [addBufferOps, applyOps]
  | cons p rest ih =>
    have hp : existsName s.table p.1 = false := hfree p (List.mem_cons_self _ _)
    have hstep : applyOp s (.add (.memoryBuffer p.2) p.1)
        = { s with table := s.table ++ [pendingEntry (.memoryBuffer p.2) p.1],
                   log := s.log ++ [.add (.memoryBuffer p.2) p.1] } := by
      simp [applyOp, Session.addE, hp]
    have hhead : p.1 ∉ rest.map Prod.fst := by
      have := hnd
      simp only [List.map_cons, List.nodup_cons] at this
      exact this.1
    have hfree' : ∀ q ∈ rest,
        existsName (s.table ++ [pendingEntry (.memoryBuffer p.2) p.1]) q.1 = false := by
      intro q hq
      have h1 : existsName s.table q.1 = false := hfree q (List.mem_cons_of_mem _ hq)
      have h2 : p.1 ≠ q.1 := by
        intro hcontra
        exact hhead (hcontra ▸ List.mem_map_of_mem Prod.fst hq)
      simp [existsName_append_one, h1, pendingEntry, EntryRecord.live, h2]
    have hnd' : (rest.map Prod.fst).Nodup := by
      have := hnd
      simp only [List.map_cons, List.nodup_cons] at this
      exact this.2
    have : (applyOps s (addBufferOps (p :: rest))).table
        = (applyOps { s with table := s.table ++ [pendingEntry (.memoryBuffer p.2) p.1],
                             log := s.log ++ [.add (.memoryBuffer p.2) p.1] }
            (addBufferOps rest)).table := by
      simp only [addBufferOps, List.map_cons]
      rw [applyOps_cons, hstep]
    rw [this, ih _ hfree' hnd']
    simp

/-- Writing a table of pending memory-buffer entries always succeeds and
stores exactly the buffered bytes under each name. -/
theorem writeEntries_memory (d : Disk) (pairs : List (String × Bytes)) :
    writeEntries d (pairs.map (fun p => pendingEntry (.memoryBuffer p.2) p.1))
      = .ok (pairs.map (fun p => { name := p.1, data := p.2, comment := "" })) := by
  induction pairs with
  | nil => rfl
  | cons p rest ih =>
    simp only [pendingEntry] at ih ⊢
    simp [writeEntries, evalPayload, evalSource, ih]

/-- In an archive whose entry names are pairwise distinct, looking up the
name of a stored entry finds exactly that entry's record. -/
theorem lookupEntry_stored (a : Committed) (hnd : (a.map StoredEntry.name).Nodup)
    (se : StoredEntry) (hm : se ∈ a) :
    lookupEntry (toEntryTable a) se.name
      = some { name := se.name, payload := .stored se.data, comment := se.comment,
               tombstoned := false } := by
  induction a with
  | nil => cases hm
  | cons e rest ih =>
    rcases List.mem_cons.mp hm with rfl | hm'
    · simp [toEntryTable, lookupEntry, EntryRecord.live]
    · have hhead : e.name ∉ rest.map StoredEntry.name := by
        have := hnd
        simp only [List.map_cons, List.nodup_cons] at this
        exact this.1
      have hne : (e.name == se.name) = false := by
        simp only [beq_eq_false_iff_ne, ne_eq]
        intro hcontra
        exact hhead (hcontra ▸ List.mem_map_of_mem StoredEntry.name hm')
      have hnd' : (rest.map StoredEntry.name).Nodup := by
        have := hnd
        simp only [List.map_cons, List.nodup_cons] at this
        exact this.2
      simp only [toEntryTable, List.map_cons, lookupEntry, EntryRecord.live]
      rw [hne]
      simpa [toEntryTable] using ih hnd' hm'

/-- Reading a freshly opened stored payload in full returns exactly the
stored bytes: the chunk is the whole payload and the checksum computed over
it agrees with the declared one. -/
theorem read_full (b : Bytes) :
    FileStream.read { data := b, declaredSize := b.length, declaredCrc := crc32 b, pos := 0 }
        b.length
      = .ok (b, { data := b, declaredSize := b.length, declaredCrc := crc32 b,
                  pos := b.length }) := by
  by_cases h0 : b.length = 0
  · have hb : b = [] := List.length_eq_zero.mp h0
    subst hb; rfl
  · have hpos : ¬ (b.length ≤ 0) := by omega
    simp [FileStream.read, hpos, List.take_length]

/-- Reading an entry whose looked-up record holds stored bytes returns those
bytes. -/
theorem readEntry_stored (s : Session) (d : Disk) (n : String) (b : Bytes) (e : EntryRecord)
    (hl : lookupEntry s.table n = some e) (hp : e.payload = .stored b) :
    readEntry s d n = .ok b := by
  simp [readEntry, Session.openEntry, openTable, statTable, hl, hp, openPayload,
    evalPayload, read_full]

/-! The claims. -/

/-- C1: for every sequence of adds with known byte payloads to an archive,
performing open, then the adds, then finalize, then reopening the archive
and reading each added entry returns exactly the original bytes of each
payload. -/
theorem c1_round_trip (pairs : List (String × Bytes)) (d : Disk)
    (hnd : (pairs.map Prod.fst).Nodup) :
    ∃ a : Committed,
      writeEntries d (applyOps (Session.ofTable []) (addBufferOps pairs)).table = .ok a ∧
      ∀ p ∈ pairs, readEntry (sessionOfArchive a) d p.1 = .ok p.2 := by
  have htab : (applyOps (Session.ofTable []) (addBufferOps pairs)).table
      = pairs.map (fun p => pendingEntry (.memoryBuffer p.2) p.1) := by
    simpa using applyOps_addAll pairs (Session.ofTable []) (fun p _ => rfl) hnd
  refine ⟨pairs.map (fun p => { name := p.1, data := p.2, comment := "" }), ?_, ?_⟩
  · rw [htab]
    exact writeEntries_memory d pairs
  · intro p hp
    have hm : ({ name := p.1, data := p.2, comment := "" } : StoredEntry)
        ∈ pairs.map (fun p => ({ name := p.1, data := p.2, comment := "" } : StoredEntry)) :=
      List.mem_map_of_mem _ hp
    have hnd2 : ((pairs.map
          (fun p => ({ name := p.1, data := p.2, comment := "" } : StoredEntry))).map
        StoredEntry.name).Nodup := by
      simpa [List.map_map, Function.comp] using hnd
    have hl := lookupEntry_stored _ hnd2 _ hm
    exact readEntry_stored _ d p.1 p.2 _ hl rfl

theorem c1_round_trip_witness :
    ∃ a : Committed,
      writeEntries []
          (applyOps (Session.ofTable [])
            (addBufferOps [("README", [84, 104]), ("INSTALL", [])])).table = .ok a ∧
      ∀ p ∈ [("README", ([84, 104] : Bytes)), ("INSTALL", [])],
        readEntry (sessionOfArchive a) [] p.1 = .ok p.2 :=
  c1_round_trip [("README", [84, 104]), ("INSTALL", [])] [] (by decide)

/-- C2: for every open archive session with buffered pending changes, every
read operation (stat, open, exists) performed before finalize reflects the
buffered view of the entry table — the committed snapshot with the logged
pending changes applied — not the on-disk committed view. -/
theorem c2_reads_reflect_buffered_view (a : Committed) (ops : List Op) (d : Disk)
    (n : String) :
    (applyOps (sessionOfArchive a) ops).existsE n
      = existsName (applyOps (sessionOfArchive a) ops).bufferedView n ∧
    (applyOps (sessionOfArchive a) ops).statE n
      = statTable (applyOps (sessionOfArchive a) ops).bufferedView n ∧
    (applyOps (sessionOfArchive a) ops).openEntry d n
      = openTable (applyOps (sessionOfArchive a) ops).bufferedView d n := by
  have h := applyOps_view (sessionOfArchive a) ops rfl
  exact ⟨by simp [Session.existsE, h], by simp [Session.statE, h],
    by simp [Session.openEntry, h]⟩

/-- C3: finalize is the only system request that mutates the stored archive,
and it is atomic — either the rewritten archive fully replaces the old one,
or the stored archive is left completely intact and the error, naming the
failing buffered entry, is reported; no partial write is ever visible. -/
theorem c3_finalize_atomic (w : World) :
    (∀ op : Op, (stepW w (.sess op)).storage = w.storage) ∧
    ((∃ e, finalizeResult w = .error e ∧ stepW w .finalize = w) ∨
     (∃ a, finalizeResult w = .ok a ∧ (stepW w .finalize).storage = some a)) := by
  constructor
  · intro op; rfl
  · cases hw : writeEntries w.disk w.session.table with
    | error e => exact .inl ⟨e, hw, by simp [stepW, hw]⟩
    | ok a => exact .inr ⟨a, hw, by simp [stepW, hw]⟩

/-- C4: for every open archive session and every sequence of buffered
changes applied after the last commit, unchangeAll restores the entries
reported by the session to exactly the snapshot that existed before those
changes were buffered. -/
theorem c4_unchangeAll_restores (a : Committed) (ops : List Op) :
    (Session.unchangeAll (applyOps (sessionOfArchive a) ops)).entries
      = (sessionOfArchive a).entries := by
  simp only [Session.unchangeAll, Session.entries]
  rw [applyOps_committed]
  rfl

/-- C5: when an entry with a given name is already live, adding a second
entry under that same name (case-sensitively) fails with DuplicateNameError,
and renaming another live entry to that name likewise fails with
DuplicateNameError; the failed operation leaves the session's entry table
unchanged. -/
theorem c5_duplicate_name (s : Session) (src : SourcePayload) (i : Nat) (e : EntryRecord)
    (n : String)
    (hdup : existsName s.table n = true)
    (he : s.table[i]? = some e) (hl : e.tombstoned = false)
    (hother : holdsNameExcept s.table i n = true) :
    s.addE src n = .error .DuplicateNameError ∧
    applyOp s (.add src n) = s ∧
    s.renameE i n = .error .DuplicateNameError ∧
    applyOp s (.rename i n) = s := by
  refine ⟨?_, ?_, ?_, ?_⟩
  · simp [Session.addE, hdup]
  · simp [applyOp, Session.addE, hdup]
  · simp [Session.renameE, he, hl, hother]
  · simp [applyOp, Session.renameE, he, hl, hother]

theorem c5_duplicate_name_witness :
    (Session.ofTable
        [{ name := "README", payload := .stored [], comment := "", tombstoned := false },
         { name := "INSTALL", payload := .stored [], comment := "", tombstoned := false }]).addE
        (.memoryBuffer [1]) "README" = .error .DuplicateNameError ∧
    applyOp (Session.ofTable
        [{ name := "README", payload := .stored [], comment := "", tombstoned := false },
         { name := "INSTALL", payload := .stored [], comment := "", tombstoned := false }])
        (.add (.memoryBuffer [1]) "README")
      = Session.ofTable
        [{ name := "README", payload := .stored [], comment := "", tombstoned := false },
         { name := "INSTALL", payload := .stored [], comment := "", tombstoned := false }] ∧
    (Session.ofTable
        [{ name := "README", payload := .stored [], comment := "", tombstoned := false },
         { name := "INSTALL", payload := .stored [], comment := "", tombstoned := false }]).renameE
        1 "README" = .error .DuplicateNameError ∧
    applyOp (Session.ofTable
        [{ name := "README", payload := .stored [], comment := "", tombstoned := false },
         { name := "INSTALL", payload := .stored [], comment := "", tombstoned := false }])
        (.rename 1 "README")
      = Session.ofTable
        [{ name := "README", payload := .stored [], comment := "", tombstoned := false },
         { name := "INSTALL", payload := .stored [], comment := "", tombstoned := false }] :=
  c5_duplicate_name _ (.memoryBuffer [1]) 1
    { name := "INSTALL", payload := .stored [], comment := "", tombstoned := false }
    "README" (by decide) (by decide) (by decide) (by decide)

/-- C6: opening a path that does not exist with the create-if-missing flag
unset fails with NotFoundError; opening it with the create flag set succeeds
and yields a valid archive whose entry sequence is empty, with zero
entries. -/
theorem c6_open_missing_path :
    openArchive none false = .error .NotFoundError ∧
    ∃ s, openArchive none true = .ok s ∧ s.entries = [] ∧ s.numEntries = 0 :=
  ⟨rfl, Session.ofTable [], rfl, rfl, rfl⟩

/-- C7: once an open entry stream's declared uncompressed size has been
fully consumed, any further read request returns 0 bytes (end-of-stream)
rather than an error — in particular a one-byte read past the declared size
yields 0 additional bytes. -/
theorem c7_read_past_end (f : FileStream) (len : Nat) (h : f.declaredSize ≤ f.pos) :
    f.read len = .ok ([], f) := by
  simp [FileStream.read, h]

theorem c7_read_past_end_witness :
    FileStream.read { data := [7], declaredSize := 1, declaredCrc := crc32 [7], pos := 1 } 1
      = .ok ([], { data := [7], declaredSize := 1, declaredCrc := crc32 [7], pos := 1 }) :=
  c7_read_past_end { data := [7], declaredSize := 1, declaredCrc := crc32 [7], pos := 1 } 1
    (by decide)

/-- C8: adding an entry whose source refers to a nonexistent disk file is
accepted at add time — the add returns the new index without consulting the
disk — and the missing-file failure is deferred to finalize, which reports
it as a NotFoundError naming the entry. -/
theorem c8_deferred_missing_file (s : Session) (p n : String) (st : Nat) (ln : Option Nat)
    (d : Disk) (hfree : existsName s.table n = false) (hmiss : diskLookup d p = none) :
    s.addE (.fileSlice p st ln) n
      = .ok (s.table.length,
          { s with table := s.table ++ [pendingEntry (.fileSlice p st ln) n],
                   log := s.log ++ [.add (.fileSlice p st ln) n] }) ∧
    writeEntries d (applyOp (Session.ofTable []) (.add (.fileSlice p st ln) n)).table
      = .error (n, .NotFoundError) := by
  constructor
  · simp [Session.addE, hfree]
  · have htab : (applyOp (Session.ofTable []) (.add (.fileSlice p st ln) n)).table
        = [pendingEntry (.fileSlice p st ln) n] := by
      simp [applyOp, Session.addE, Session.ofTable, existsName]
    rw [htab]
    simp [writeEntries, pendingEntry, evalPayload, evalSource, hmiss]

theorem c8_deferred_missing_file_witness :
    (Session.ofTable []).addE (.fileSlice "file_not_exist" 0 none) "FILE"
      = .ok (0, { committed := [], table := [pendingEntry (.fileSlice "file_not_exist" 0 none) "FILE"],
                  log := [.add (.fileSlice "file_not_exist" 0 none) "FILE"] }) ∧
    writeEntries [] (applyOp (Session.ofTable [])
        (.add (.fileSlice "file_not_exist" 0 none) "FILE")).table
      = .error ("FILE", .NotFoundError) :=
  c8_deferred_missing_file (Session.ofTable []) "file_not_exist" "FILE" 0 none []
    (by decide) (by decide)

/-- C9 counterexample: the string-returning read overload embedded from the
source maps a failing raw read to the plain empty string — the very value a
legitimate empty read produces — and maps a short raw read to a silently
truncated result, so a storage failure during this read operation does not
surface as a typed failure, contradicting the claim at the concrete input of
a failed raw read with requested length 5. -/
theorem c9_counterexample :
    ZipFile.readString none 5 = ZipFile.readString (some []) 5 ∧
    ZipFile.readString none 5 = [] ∧
    ZipFile.readString (some [1, 2]) 5 = [1, 2] :=
  ⟨rfl, rfl, rfl⟩

/-- C9 (amended): the string-returning read overload silently downgrades
failures — when the underlying raw read fails it returns the empty string,
and when the raw read delivers fewer bytes than requested it returns just
those bytes with no error indication; underlying failures are observable
only through the raw overload's -1 return. -/
theorem c9_silent_downgrade (lengthReq : Nat) (b : Bytes) (hb : b.length ≤ lengthReq) :
    ZipFile.readString none lengthReq = [] ∧
    ZipFile.readString (some b) lengthReq = b :=
  ⟨rfl, by simp [ZipFile.readString, List.take_of_length_le hb]⟩

theorem c9_silent_downgrade_witness :
    ZipFile.readString none 5 = [] ∧ ZipFile.readString (some [9]) 5 = [9] :=
  c9_silent_downgrade 5 [9] (by decide)

/-- C10: archive entry iterators compare by index only — equality holds
exactly when the indices are equal, regardless of which archive each
iterator refers to — and consequently begin() equals end() exactly when the
archive reports zero entries. -/
theorem c10_iterator_index_equality (x y : ZipIter) (a : ArchiveRef) :
    (ZipIter.eqIter x y = true ↔ x.index = y.index) ∧
    (ZipIter.eqIter x y = ZipIter.eqIter { x with archive := a } y) ∧
    (ZipIter.eqIter a.beginIter a.endIter = true ↔ a.numEntries = 0) := by
  refine ⟨?_, rfl, ?_⟩
  · simp [ZipIter.eqIter]
  · simp only [ZipIter.eqIter, ArchiveRef.beginIter, ArchiveRef.endIter, beq_iff_eq]
    exact eq_comm

end LibzipSpec
